import Mathlib

/-!
Shallow embedding of `runner_app.py`: a Flask app that lets a user run a
stored "program" (source text fetched from Postgres by block index) as a
child process and watch its output.  We model the pure data flow of the
handlers: identifier normalization (`safe_program_name`), program selection
on the index page (`index`), the run handler (`run_program`) as a state
transformer emitting an event trace, the two capture pumps (`pump`), the
SSE generator (`event_stream`), and the reaction counters
(`increment_like` / `increment_dislike`).
-/

namespace Runner

/-- Split a character list at every occurrence of `c` (like `str.split`). -/
def splitChar (c : Char) : List Char → List (List Char)
  | [] => [[]]
  | x :: xs =>
    let r := splitChar c xs
    if x = c then [] :: r
    else
      match r with
      | [] => [[x]]
      | h :: t => (x :: h) :: t

/-- `os.path.basename` on POSIX: everything after the last `/`. -/
def basenameL (l : List Char) : List Char :=
  (splitChar '/' l).getLastD []

/-- `name[:-3]` applied when `name.endswith(".py")`: drop a trailing `.py`. -/
def stripPy (l : List Char) : List Char :=
  match l.reverse with
  | 'y' :: 'p' :: '.' :: rest => rest.reverse
  | _ => l

/-- `safe_program_name` from runner_app.py: `None`/empty input is rejected,
the directory component is stripped, a trailing `.py` is stripped, and any
value still containing `/` or `\` is rejected. -/
def safe_program_name (name : Option String) : Option String :=
  match name with
  | none => none
  | some n =>
    if n.data = [] then none
    else
      let b := stripPy (basenameL n.data)
      if b.contains '/' || b.contains '\\' then none
      else some (String.mk b)

/-- Python `x in programs` where `x` may be `None` (then always false). -/
def optMem (x : Option String) (l : List String) : Bool :=
  match x with
  | none => false
  | some s => l.contains s

/-- Program selection in the `index` handler: with a non-empty program list,
a normalized request parameter that is absent or not listed falls back to
`programs[0]`; a listed one is selected as-is. -/
def index_select (programs : List String) (param : Option String) :
    Option String :=
  let selected := safe_program_name param
  if programs.isEmpty then none
  else if optMem selected programs then selected
  else programs.head?

/-! ## The `/run` handler

`run_program` mutates three module-level tables: `running_processes`
(identifier → process handle), `output_queues` (identifier → queue object)
and `last_output` (identifier → accumulated text, a `defaultdict(str)`).
We model process handles and queue objects by identity tags (`Nat`) drawn
from a fresh-id counter, and record the handler's externally visible
actions as an event list. -/

/-- Observable actions of the `/run` handler, in program order. -/
inductive REv
  | killReq (handle : Nat)
  | codeLookup (prog : String)
  | launch (pid : Nat)
  | store (prog : String) (pid : Nat)
  deriving DecidableEq, Repr

/-- HTTP response of a handler: every path of `run_program` returns a
redirect to `index` carrying the (possibly `None`) program parameter. -/
inductive Resp
  | redirect (prog : Option String)
  | httpError
  deriving DecidableEq, Repr

/-- The module-level mutable state of runner_app.py, with a fresh-id
counter used to tag newly created queue objects and process handles. -/
structure AppState where
  running_processes : String → Option Nat
  output_queues : String → Option Nat
  last_output : String → String
  nextId : Nat

/-- Pointwise update of a string-keyed table. -/
def setKey {α : Type} (f : String → α) (k : String) (v : α) :
    String → α :=
  fun p => if p = k then v else f p

/-- Result of one `run_program` request: final state, event list, response. -/
structure RunResult where
  state : AppState
  events : List REv
  resp : Resp

/-- The `/run` handler.  `programs` models `get_programs()` (the sorted
block list), `code` models `get_program_code` (`None` = no row), `raw` the
posted form field, and `killRaises` whether `kill()` on the old handle
raises (the handler swallows this with `try/except: pass`).  Faithful
ordering: validate, kill the previous instance, install a fresh queue and
reset `last_output`, then fetch the code, then launch and store. -/
def run_program (st : AppState) (programs : List String)
    (code : String → Option String) (raw : Option String)
    (killRaises : Bool) : RunResult :=
  match safe_program_name raw with
  | none => ⟨st, [], .redirect none⟩
  | some program =>
    -- `if not program or program not in programs`: an empty string is
    -- falsy in Python, so it is rejected exactly like an unlisted one
    if program = "" ∨ ¬ programs.contains program then
      ⟨st, [], .redirect (some program)⟩
    else
      -- kill previous instance if running; exceptions swallowed
      let killEvs := match st.running_processes program with
        | some h => [REv.killReq h]
        | none => []
      let _ := killRaises
      -- fresh queue, reset displayed output
      let qid := st.nextId
      let st1 : AppState :=
        { st with
          output_queues := setKey st.output_queues program (some qid)
          last_output := setKey st.last_output program ""
          nextId := st.nextId + 1 }
      -- fetch code from Postgres
      match code program with
      | none => ⟨st1, killEvs ++ [.codeLookup program], .redirect (some program)⟩
      | some _ =>
        let pid := st1.nextId
        let st2 : AppState :=
          { st1 with
            running_processes := setKey st1.running_processes program (some pid)
            nextId := st1.nextId + 1 }
        ⟨st2, killEvs ++ [.codeLookup program, .launch pid, .store program pid],
          .redirect (some program)⟩

/-! ## Capture pumps and object identity

A pump closes over the queue *object* `q_` it was handed at start
(`pump(pipe, q_, prog)` and `q_.put(decoded)`), but appends to the replay
buffer through the module-level dict re-resolved by name
(`last_output[prog] += decoded`).  To reason about chunks landing in old
versus new queue objects, queues live in a heap indexed by their identity
tag. -/

/-- Heap of queue objects plus the name-keyed replay-buffer dict. -/
structure Sys where
  queues : Nat → List String
  last_output : String → String

/-- One pump iteration delivering one decoded chunk: `q_.put(decoded)` on
the queue object `boundQ` captured at pump start, then
`last_output[prog] += decoded` through the name-keyed dict. -/
def pumpStep (sys : Sys) (boundQ : Nat) (prog : String) (chunk : String) :
    Sys :=
  { queues := fun i => if i = boundQ then sys.queues i ++ [chunk] else sys.queues i
    last_output := setKey sys.last_output prog (sys.last_output prog ++ chunk) }

/-- An interleaved schedule of pump iterations, possibly from several pumps
(each triple: the queue object the pump is bound to, the program name it
was started with, the decoded chunk). -/
def pumpSteps (sys : Sys) : List (Nat × String × String) → Sys
  | [] => sys
  | (bq, pr, c) :: rest => pumpSteps (pumpStep sys bq pr c) rest

/-! ## The `/stream/<program>` SSE generator

`event_stream` first yields `"retry: 200\n\n"`, then loops: if the queue
reference is `None` it sleeps and yields nothing; otherwise it drains the
queue, yielding `f"data: {line}\n\n"` per chunk, and sleeps.  We model the
output of one iteration of the outer loop as a function of the queue
contents observed in that iteration, and a finite run of the generator as
the concatenation over a list of observed queue states. -/

/-- Strings yielded during one outer-loop iteration of `event_stream`,
given the queue reference (`none` = no queue for this program) and the
chunks drained in this iteration.  An idle iteration yields nothing. -/
def event_stream_iter (q : Option (List String)) : List String :=
  match q with
  | none => []
  | some chunks => chunks.map (fun l => "data: " ++ l ++ "\n\n")

/-- Everything yielded by `event_stream` across a finite run of outer-loop
iterations: the initial `retry` directive, then each iteration's output. -/
def event_stream (iters : List (Option (List String))) : List String :=
  "retry: 200\n\n" :: (iters.map event_stream_iter).flatten

/-- The chunks actually drained during a run of the generator. -/
def drained (iters : List (Option (List String))) : List String :=
  (iters.map (fun q => q.getD [])).flatten

/-! ## Reactions (likes / dislikes)

`program_reactions` is a table keyed by program with integer `likes` and
`dislikes` columns; absence of a row reads as `(0, 0)` (`get_reactions`).
`increment_like` is an upsert `VALUES (p, 1, 0) ON CONFLICT DO UPDATE SET
likes = likes + 1`; `increment_dislike` is the symmetric upsert. -/

/-- The `program_reactions` table: program → `(likes, dislikes)` row. -/
def Reactions : Type := String → Option (Nat × Nat)

/-- `get_reactions`: `(0, 0)` when no row exists. -/
def get_reactions (tbl : Reactions) (program : String) : Nat × Nat :=
  (tbl program).getD (0, 0)

/-- `increment_like`: insert `(1, 0)` or bump `likes` by one. -/
def increment_like (tbl : Reactions) (program : String) : Reactions :=
  fun p =>
    if p = program then
      match tbl program with
      | none => some (1, 0)
      | some (l, d) => some (l + 1, d)
    else tbl p

/-- `increment_dislike`: insert `(0, 1)` or bump `dislikes` by one. -/
def increment_dislike (tbl : Reactions) (program : String) : Reactions :=
  fun p =>
    if p = program then
      match tbl program with
      | none => some (0, 1)
      | some (l, d) => some (l, d + 1)
    else tbl p

/-! ## Byte decoding: `line.decode("utf-8", errors="replace")`

A total UTF-8 decoder over byte lists: well-formed sequences decode to
their scalar value, and each maximal ill-formed subpart is replaced by
U+FFFD (the decoder resumes at the first byte that cannot continue the
current sequence), which is how CPython's `errors="replace"` handler
behaves.  Totality of this function is the embedding of "decoding never
raises". -/

/-- A UTF-8 continuation byte. -/
def isCont (b : Nat) : Bool := 0x80 ≤ b && b ≤ 0xBF

/-- Allowed second byte after a three-byte lead (excludes overlong forms
after `0xE0` and surrogates after `0xED`). -/
def snd3 (lead b : Nat) : Bool :=
  if lead = 0xE0 then 0xA0 ≤ b && b ≤ 0xBF
  else if lead = 0xED then 0x80 ≤ b && b ≤ 0x9F
  else isCont b

/-- Allowed second byte after a four-byte lead (excludes overlong forms
after `0xF0` and values beyond U+10FFFF after `0xF4`). -/
def snd4 (lead b : Nat) : Bool :=
  if lead = 0xF0 then 0x90 ≤ b && b ≤ 0xBF
  else if lead = 0xF4 then 0x80 ≤ b && b ≤ 0x8F
  else isCont b

/-- Decoder state: either between sequences or inside a multi-byte
sequence (carrying the lead, or the partially accumulated scalar value). -/
inductive Pending
  | clear
  | c2 (lead : Nat)
  | e1 (lead : Nat)
  | e2 (v : Nat)
  | f1 (lead : Nat)
  | f2 (v : Nat)
  | f3 (v : Nat)
  deriving DecidableEq, Repr

/-- Consume one byte with no sequence in progress. -/
def stepClear (b : Nat) : List Nat × Pending :=
  if b ≤ 0x7F then ([b], .clear)
  else if 0xC2 ≤ b && b ≤ 0xDF then ([], .c2 b)
  else if 0xE0 ≤ b && b ≤ 0xEF then ([], .e1 b)
  else if 0xF0 ≤ b && b ≤ 0xF4 then ([], .f1 b)
  else ([0xFFFD], .clear)

/-- Consume one byte: a byte that cannot continue the pending sequence
closes the maximal ill-formed subpart with one U+FFFD and is reprocessed
as a fresh byte. -/
def stepByte (p : Pending) (b : Nat) : List Nat × Pending :=
  match p with
  | .clear => stepClear b
  | .c2 l =>
    if isCont b then ([(l - 0xC0) * 64 + (b - 0x80)], .clear)
    else let r := stepClear b; (0xFFFD :: r.1, r.2)
  | .e1 l =>
    if snd3 l b then ([], .e2 ((l - 0xE0) * 4096 + (b - 0x80) * 64))
    else let r := stepClear b; (0xFFFD :: r.1, r.2)
  | .e2 v =>
    if isCont b then ([v + (b - 0x80)], .clear)
    else let r := stepClear b; (0xFFFD :: r.1, r.2)
  | .f1 l =>
    if snd4 l b then ([], .f2 ((l - 0xF0) * 262144 + (b - 0x80) * 4096))
    else let r := stepClear b; (0xFFFD :: r.1, r.2)
  | .f2 v =>
    if isCont b then ([], .f3 (v + (b - 0x80) * 64))
    else let r := stepClear b; (0xFFFD :: r.1, r.2)
  | .f3 v =>
    if isCont b then ([v + (b - 0x80)], .clear)
    else let r := stepClear b; (0xFFFD :: r.1, r.2)

/-- End of input: a sequence still in progress is one maximal ill-formed
subpart, i.e. one U+FFFD. -/
def flush (p : Pending) : List Nat :=
  match p with
  | .clear => []
  | _ => [0xFFFD]

/-- Run the decoder from state `p` over a byte list. -/
def utf8Run (p : Pending) : List Nat → List Nat
  | [] => flush p
  | b :: rest => (stepByte p b).1 ++ utf8Run (stepByte p b).2 rest

/-- Total UTF-8 decoding with U+FFFD replacement: byte list → scalar
values. -/
def utf8Replace (l : List Nat) : List Nat :=
  utf8Run .clear l

/-- `line.decode("utf-8", errors="replace")` as a string. -/
def decodeLine (bs : List Nat) : String :=
  String.mk ((utf8Replace bs).map Char.ofNat)

/-! ## The pump body as an event sequence

For one stream of one execution, `pump` iterates over the byte lines of
its pipe; per line it decodes, then `q_.put(decoded)`, then
`last_output[prog] += decoded`.  The interleaving-sensitive claims use
`pumpStep`/`pumpSteps` above; the per-stream ordering claims use this
linear trace of channel offers and buffer appends. -/

/-- A channel offer (`q_.put`) or a replay-buffer append, carrying the
decoded chunk. -/
inductive PEv
  | offer (s : String)
  | append (s : String)
  deriving DecidableEq, Repr

/-- The trace of one pump over the byte lines of its pipe: per line, the
decoded chunk is offered to the channel and then appended to the buffer.
Every line is processed; no exception path skips a line. -/
def pump (lines : List (List Nat)) : List PEv :=
  match lines with
  | [] => []
  | l :: ls => .offer (decodeLine l) :: .append (decodeLine l) :: pump ls

/-- The chunks offered to the Distribution Channel, in trace order. -/
def offers (t : List PEv) : List String :=
  t.filterMap (fun e => match e with | .offer s => some s | _ => none)

/-- The chunks appended to the Replay Buffer, in trace order. -/
def appends (t : List PEv) : List String :=
  t.filterMap (fun e => match e with | .append s => some s | _ => none)

/-- Frame an output chunk as one SSE data event, as in
`yield f"data: {line}\n\n"`. -/
def sseFrame (l : String) : String :=
  ("data: " ++ l) ++ "\n\n"

/-- Chunks of a pump-iteration schedule delivered to queue object `i`. -/
def chunksToQueue (steps : List (Nat × String × String)) (i : Nat) :
    List String :=
  (steps.filter (fun s => s.1 == i)).map (fun s => s.2.2)

/-- Chunks of a pump-iteration schedule whose pump was started for
program name `p` (the replay buffer is keyed by this name). -/
def chunksToName (steps : List (Nat × String × String)) (p : String) :
    List String :=
  (steps.filter (fun s => s.2.1 == p)).map (fun s => s.2.2)

/-- Left-fold concatenation of chunks onto an initial buffer value. -/
def concatChunks (init : String) (cs : List String) : String :=
  cs.foldl (fun a c => a ++ c) init

/-- A concrete pre-request state for the run-handler counterexamples:
program `"7"` is tracked with handle 5, has queue object 3 and a
non-empty replay buffer, and the fresh-id counter is at 10. -/
def stRun : AppState :=
  { running_processes := fun p => if p = "7" then some 5 else none
    output_queues := fun p => if p = "7" then some 3 else none
    last_output := fun p => if p = "7" then "old" else ""
    nextId := 10 }

/-! ## Executable sanity checks on the embedded definitions -/

example : safe_program_name (some "7") = some "7" := by decide
example : safe_program_name (some "../etc") = some "etc" := by decide
example : safe_program_name (some "a/b.py") = some "b" := by decide
example : safe_program_name (some "a\\b") = none := by decide
example : safe_program_name none = none := by decide
example : index_select ["1", "2"] (some "9") = some "1" := by decide
example : index_select ["1", "2"] (some "2") = some "2" := by decide
example : index_select [] (some "2") = none := by decide
example : safe_program_name (some "x/") = some "" := by decide
example : run_program stRun [""] (fun _ => some "x") (some "x/") false =
    ⟨stRun, [], .redirect (some "")⟩ := rfl
example : run_program stRun ["7"] (fun _ => some "x") (some ".py") false =
    ⟨stRun, [], .redirect (some "")⟩ := rfl
example : utf8Replace [0x68, 0x69] = [0x68, 0x69] := by decide
example : utf8Replace [0xFF, 0x68] = [0xFFFD, 0x68] := by decide
example : utf8Replace [0xC3, 0xA9] = [0xE9] := by decide
example : utf8Replace [0xE2, 0x82, 0xAC] = [0x20AC] := by decide
example : utf8Replace [0xED, 0xA0, 0x80] = [0xFFFD, 0xFFFD, 0xFFFD] := by decide
example : utf8Replace [0xF0, 0x9F, 0x98, 0x80] = [0x1F600] := by decide
example : utf8Replace [0xE1, 0x80, 0xFF] = [0xFFFD, 0xFFFD] := by decide
example : utf8Replace [0xC0, 0xAF] = [0xFFFD, 0xFFFD] := by decide
example : utf8Replace [0xC2] = [0xFFFD] := by decide

/-! # Theorems for the claims -/

theorem event_stream_iter_frames (q : Option (List String)) :
    event_stream_iter q = (q.getD []).map sseFrame := by
  cases q <;> rfl

/-- C8: every stream response of `GET /stream/<program>` begins with the
`retry: 200` directive followed by a blank line, and each drained chunk is
relayed as exactly one event `data: <line>\n\n` (the chunk prefixed with
`"data: "` and terminated by a blank line), in order. -/
theorem C8_sse_framing (iters : List (Option (List String))) :
    event_stream iters =
      ("retry: 200\n" ++ "\n") :: (drained iters).map sseFrame := by
  have hhd : ("retry: 200\n" ++ "\n") = "retry: 200\n\n" := by decide
  rw [hhd]
  unfold event_stream drained
  induction iters with
  | nil => rfl
  | cons q rest ih =>
    simp only [List.map_cons, List.flatten_cons, List.map_append,
      event_stream_iter_frames] at *
    rw [List.cons.injEq] at ih
    exact congrArg _ (by rw [ih.2])

/-- C4 as stated is false: during idle iterations the generator yields
nothing at all (it only sleeps), so three consecutive idle loop iterations
produce no output beyond the single initial `retry` directive — there is
no keep-alive event. -/
theorem C4_counterexample :
    event_stream [some [], some [], some []] = ["retry: 200\n\n"] ∧
    (event_stream [some [], some [], some []]).length = 1 := by
  constructor <;> rfl

/-- C4 amended: a subscription emits the single initial `retry: 200`
directive and data events for drained chunks only; while the channel is
idle (absent queue or empty queue at every poll) nothing further is ever
emitted — no periodic keep-alive exists, and an idle connection stays
silent indefinitely. -/
theorem C4_no_keepalive (iters : List (Option (List String)))
    (hidle : ∀ q ∈ iters, q = none ∨ q = some []) :
    event_stream iters = ["retry: 200\n\n"] := by
  unfold event_stream
  induction iters with
  | nil => rfl
  | cons q rest ih =>
    have hq := hidle q (by simp)
    have hrest : ∀ q ∈ rest, q = none ∨ q = some [] := by
      intro x hx; exact hidle x (by simp [hx])
    have ih2 := ih hrest
    rw [List.cons.injEq] at ih2
    simp only [List.map_cons, List.flatten_cons]
    rw [List.cons.injEq]
    refine ⟨rfl, ?_⟩
    rcases hq with h | h <;> simp [h, event_stream_iter, ih2.2]

/-- C4 witness: three idle polls of an existing (empty) queue. -/
theorem C4_no_keepalive_witness :
    event_stream [some [], some [], some []] = ["retry: 200\n\n"] :=
  C4_no_keepalive [some [], some [], some []] (by decide)

/-- C2 as stated is false on the replay buffer.  Post-supersede state: the
second run reset `last_output["7"]` to `""` and bound its pumps to queue
object 1, while the first run's still-draining pump stays bound to queue
object 0.  The old pump then produces chunk `"A"` and the new pump chunk
`"B"`: `"A"` goes only into the superseded queue object 0 (never queue 1),
but the snapshot `last_output["7"]` ends up `"AB"` — a chunk from the
first run is visible in the post-supersede snapshot, because
`last_output[prog] += decoded` re-resolves the buffer by name. -/
theorem C2_counterexample :
    (pumpSteps ⟨fun _ => [], fun _ => ""⟩
        [(0, "7", "A"), (1, "7", "B")]).last_output "7" = "AB" ∧
    (pumpSteps ⟨fun _ => [], fun _ => ""⟩
        [(0, "7", "A"), (1, "7", "B")]).queues 0 = ["A"] ∧
    (pumpSteps ⟨fun _ => [], fun _ => ""⟩
        [(0, "7", "A"), (1, "7", "B")]).queues 1 = ["B"] ∧
    ("AB" : String) ≠ "B" := by
  refine ⟨rfl, rfl, rfl, by decide⟩

/-- C2 amended: a pump's channel writes go only to the queue *object* it
was bound to at pump-start time (a superseded pump's chunks land in the
old queue object and never in the new run's queue), but its replay-buffer
writes re-resolve `last_output` by program *name* on every append, so a
superseded pump's chunks do appear in the post-supersede snapshot
`last_output[X]`, interleaved with the new run's chunks in schedule
order. -/
theorem C2_pump_binding (sys : Sys)
    (steps : List (Nat × String × String)) :
    (∀ i, (pumpSteps sys steps).queues i =
        sys.queues i ++ chunksToQueue steps i) ∧
    (∀ p, (pumpSteps sys steps).last_output p =
        concatChunks (sys.last_output p) (chunksToName steps p)) := by
  induction steps generalizing sys with
  | nil => exact ⟨fun i => by simp [pumpSteps, chunksToQueue],
      fun p => by simp [pumpSteps, chunksToName, concatChunks]⟩
  | cons s rest ih =>
    obtain ⟨bq, pr, c⟩ := s
    refine ⟨fun i => ?_, fun p => ?_⟩
    · have h := (ih (pumpStep sys bq pr c)).1 i
      rw [pumpSteps] at *
      rw [h]
      by_cases hbq : bq = i
      · subst hbq
        simp [pumpStep, chunksToQueue]
      · have : (bq == i) = false := by simp [hbq]
        simp [pumpStep, chunksToQueue, this, if_neg (Ne.symm hbq)]
    · have h := (ih (pumpStep sys bq pr c)).2 p
      rw [pumpSteps] at *
      rw [h]
      by_cases hpr : pr = p
      · subst hpr
        simp [pumpStep, chunksToName, concatChunks, setKey]
      · have : (pr == p) = false := by simp [hpr]
        simp [pumpStep, chunksToName, concatChunks, setKey, this,
          if_neg (Ne.symm hpr)]

/-- C5: for a single execution and a single output stream, at every point
of the pump's trace the chunks appended so far to the Replay Buffer are an
initial segment of the chunks offered so far to the Distribution Channel
(every appended chunk was first offered, in the same relative order), and
over the whole trace the two chunk sequences are equal. -/
theorem C5_buffer_copies_channel (lines : List (List Nat)) (t : List PEv)
    (hpre : ∃ u, t ++ u = pump lines) :
    (∃ v, appends t ++ v = offers t) ∧
    appends (pump lines) = offers (pump lines) := by
  constructor
  · induction lines generalizing t with
    | nil =>
      obtain ⟨u, hu⟩ := hpre
      rw [pump] at hu
      have ht : t = [] := by
        cases t with
        | nil => rfl
        | cons e t1 => simp at hu
      subst ht
      exact ⟨[], rfl⟩
    | cons l ls ih =>
      obtain ⟨u, hu⟩ := hpre
      rw [pump] at hu
      cases t with
      | nil => exact ⟨[], rfl⟩
      | cons e t1 =>
        rw [List.cons_append, List.cons.injEq] at hu
        obtain ⟨he, hu⟩ := hu
        subst he
        cases t1 with
        | nil =>
          exact ⟨[decodeLine l], by simp [appends, offers]⟩
        | cons e2 t2 =>
          rw [List.cons_append, List.cons.injEq] at hu
          obtain ⟨he2, hu⟩ := hu
          subst he2
          obtain ⟨v, hv⟩ := ih t2 ⟨u, hu⟩
          refine ⟨v, ?_⟩
          simp only [appends, offers, List.filterMap_cons] at hv ⊢
          simpa using hv
  · clear hpre
    induction lines with
    | nil => rfl
    | cons l ls ih =>
      simp only [pump, appends, offers, List.filterMap_cons] at ih ⊢
      simpa using ih

/-- C5 witness: stream of two byte lines, observed after the first offer
(the buffer is then still empty while the channel already has the chunk). -/
theorem C5_buffer_copies_channel_witness :
    ([PEv.offer "h"] ++ [PEv.append "h", PEv.offer "i", PEv.append "i"] =
      pump [[0x68], [0x69]]) ∧
    (∃ v, appends [PEv.offer "h"] ++ v = offers [PEv.offer "h"]) ∧
    appends (pump [[0x68], [0x69]]) = offers (pump [[0x68], [0x69]]) := by
  have h := C5_buffer_copies_channel [[0x68], [0x69]] [PEv.offer "h"]
    ⟨[PEv.append "h", PEv.offer "i", PEv.append "i"], by decide⟩
  exact ⟨by decide, h.1, h.2⟩

/-- The streaming decoder maps a pure-ASCII tail to itself. -/
theorem utf8Run_ascii (l : List Nat) (h : ∀ x ∈ l, x ≤ 0x7F) :
    utf8Run .clear l = l := by
  induction l with
  | nil => rfl
  | cons b rest ih =>
    have hb : b ≤ 0x7F := h b (by simp)
    have hstep : stepByte .clear b = ([b], .clear) := by
      simp [stepByte, stepClear, hb]
    rw [utf8Run, hstep]
    simp [ih fun x hx => h x (by simp [hx])]

/-- C7: the pump never drops a line — for every list of byte lines, the
chunk sequences delivered to the channel and appended to the buffer are
exactly the decodes of all lines, in order (decoding is a total function,
so no decode error can terminate the pump); and an invalid byte inside
otherwise-valid output decodes to the U+FFFD replacement marker with all
surrounding valid bytes still captured. -/
theorem C7_decode_never_fails :
    (∀ lines : List (List Nat),
      offers (pump lines) = lines.map decodeLine ∧
      appends (pump lines) = lines.map decodeLine) ∧
    (∀ pre post : List Nat, (∀ x ∈ pre, x ≤ 0x7F) → (∀ x ∈ post, x ≤ 0x7F) →
      utf8Replace (pre ++ 0xFF :: post) = pre ++ 0xFFFD :: post) := by
  constructor
  · intro lines
    induction lines with
    | nil => exact ⟨rfl, rfl⟩
    | cons l ls ih =>
      simp only [pump, offers, appends, List.filterMap_cons, List.map_cons] at ih ⊢
      exact ⟨by simp [ih.1], by simp [ih.2]⟩
  · intro pre post hpre hpost
    unfold utf8Replace
    induction pre with
    | nil =>
      have hff : stepByte .clear 0xFF = ([0xFFFD], .clear) := by decide
      rw [List.nil_append, utf8Run, hff]
      simp [utf8Run_ascii post hpost]
    | cons b rest ih =>
      have hb : b ≤ 0x7F := hpre b (by simp)
      have hstep : stepByte .clear b = ([b], .clear) := by
        simp [stepByte, stepClear, hb]
      rw [List.cons_append, utf8Run, hstep]
      simp only [List.singleton_append, List.cons_append, List.nil_append]
      rw [ih fun x hx => hpre x (by simp [hx])]

/-- C7 witness: one stream whose middle line contains a bad byte between
two ASCII bytes; the bad byte becomes U+FFFD and everything is captured. -/
theorem C7_decode_never_fails_witness :
    offers (pump [[0x68, 0xFF, 0x69]]) = [decodeLine [0x68, 0xFF, 0x69]] ∧
    appends (pump [[0x68, 0xFF, 0x69]]) = [decodeLine [0x68, 0xFF, 0x69]] ∧
    utf8Replace ([0x68] ++ 0xFF :: [0x69]) = [0x68] ++ 0xFFFD :: [0x69] := by
  refine ⟨(C7_decode_never_fails.1 [[0x68, 0xFF, 0x69]]).1,
    (C7_decode_never_fails.1 [[0x68, 0xFF, 0x69]]).2,
    C7_decode_never_fails.2 [0x68] [0x69] (by decide) (by decide)⟩

/-- C1 as stated is false: when `get_program_code` returns `None` for the
validated identifier `"7"`, the handler has already issued the kill
against the previously tracked handle 5 and already replaced the
`output_queues` entry (object 3 → fresh object 10) and reset
`last_output["7"]` (`"old"` → `""`), because those steps precede the
lookup; only the launch is avoided. -/
theorem C1_counterexample :
    (run_program stRun ["7"] (fun _ => none) (some "7") false).events =
      [REv.killReq 5, REv.codeLookup "7"] ∧
    (run_program stRun ["7"] (fun _ => none) (some "7") false).state.output_queues "7" =
      some 10 ∧
    some 10 ≠ some 3 ∧
    (run_program stRun ["7"] (fun _ => none) (some "7") false).state.last_output "7" =
      "" ∧
    ("" : String) ≠ "old" := by
  refine ⟨rfl, rfl, by decide, rfl, by decide⟩

/-- C1 amended: when the source-text lookup fails for a validated
identifier (normalization succeeded on a non-empty — hence truthy — name
that is in the program list), no child process is launched, `running_processes` is left
untouched (the stale killed handle remains stored) and the caller gets the
normal redirect; but the mutations that precede the lookup do happen — a
kill is issued against any previously tracked handle, the identifier's
`output_queues` entry is replaced by a fresh queue object, and
`last_output` is reset to the empty string. -/
theorem C1_lookup_failure (st : AppState) (programs : List String)
    (code : String → Option String) (raw : Option String) (program : String)
    (b : Bool) (hname : safe_program_name raw = some program)
    (hne : program ≠ "") (hmem : programs.contains program = true)
    (hcode : code program = none) :
    (∀ pid, REv.launch pid ∉ (run_program st programs code raw b).events) ∧
    (run_program st programs code raw b).state.running_processes =
      st.running_processes ∧
    (run_program st programs code raw b).state.output_queues program =
      some st.nextId ∧
    (run_program st programs code raw b).state.last_output program = "" ∧
    (∀ h, st.running_processes program = some h →
      REv.killReq h ∈ (run_program st programs code raw b).events) ∧
    (run_program st programs code raw b).resp = Resp.redirect (some program) := by
  have hrun : run_program st programs code raw b =
      ⟨{ st with
          output_queues := setKey st.output_queues program (some st.nextId)
          last_output := setKey st.last_output program ""
          nextId := st.nextId + 1 },
        (match st.running_processes program with
          | some h => [REv.killReq h]
          | none => []) ++ [.codeLookup program],
        .redirect (some program)⟩ := by
    have hm : program ∈ programs := by simpa using hmem
    unfold run_program
    rw [hname]
    simp [hne, hmem, hm, hcode]
  rw [hrun]
  refine ⟨?_, rfl, by simp [setKey], by simp [setKey], ?_, rfl⟩
  · intro pid
    cases hrp : st.running_processes program <;> simp [hrp]
  · intro h hrp
    simp [hrp]

/-- C1 witness: the concrete state `stRun` with a lookup that fails. -/
theorem C1_lookup_failure_witness :
    safe_program_name (some "7") = some "7" ∧
    (["7"].contains "7") = true ∧
    (fun _ : String => (none : Option String)) "7" = none ∧
    (run_program stRun ["7"] (fun _ => none) (some "7") false).state.last_output "7" =
      "" ∧
    REv.launch 10 ∉ (run_program stRun ["7"] (fun _ => none) (some "7") false).events ∧
    REv.killReq 5 ∈ (run_program stRun ["7"] (fun _ => none) (some "7") false).events := by
  have h := C1_lookup_failure stRun ["7"] (fun _ => none) (some "7") "7" false
    (by decide) (by decide) (by decide) rfl
  exact ⟨by decide, by decide, rfl, h.2.2.2.1, h.1 10, h.2.2.2.2.1 5 rfl⟩

/-- C6: when a tracked execution exists for the identifier and the run
request completes (identifier non-empty — truthy — and listed, source
found, process launched), the kill request
against the previous handle is the first event and the store of the new
handle the last — the kill strictly precedes the store; the handler's
result does not depend on whether the kill raised (`try/except: pass`
swallows it), and the caller always receives the redirect, never an
error. -/
theorem C6_kill_before_store (st : AppState) (programs : List String)
    (code : String → Option String) (raw : Option String) (program : String)
    (src : String) (h : Nat) (b : Bool)
    (hname : safe_program_name raw = some program)
    (hne : program ≠ "")
    (hmem : programs.contains program = true)
    (hrp : st.running_processes program = some h)
    (hcode : code program = some src) :
    (run_program st programs code raw b).events =
      [REv.killReq h, REv.codeLookup program, REv.launch (st.nextId + 1),
        REv.store program (st.nextId + 1)] ∧
    run_program st programs code raw true =
      run_program st programs code raw false ∧
    (run_program st programs code raw b).resp = Resp.redirect (some program) := by
  have hm : program ∈ programs := by simpa using hmem
  unfold run_program
  rw [hname]
  simp [hne, hmem, hm, hrp, hcode]

/-- C6 witness: the concrete state `stRun`, where `"7"` is tracked with
handle 5 and has source text. -/
theorem C6_kill_before_store_witness :
    safe_program_name (some "7") = some "7" ∧
    (["7"].contains "7") = true ∧
    stRun.running_processes "7" = some 5 ∧
    (run_program stRun ["7"] (fun _ => some "print(1)") (some "7") false).events =
      [REv.killReq 5, REv.codeLookup "7", REv.launch 11, REv.store "7" 11] ∧
    (run_program stRun ["7"] (fun _ => some "print(1)") (some "7") false).resp =
      Resp.redirect (some "7") := by
  have h := C6_kill_before_store stRun ["7"] (fun _ => some "print(1)")
    (some "7") "7" "print(1)" 5 false (by decide) (by decide) (by decide) rfl rfl
  exact ⟨by decide, by decide, rfl, h.1, h.2.2⟩

/-- C3 as stated is false: `safe_program_name` does not reject `"../etc"`
— it strips the directory component and returns `"etc"`. -/
theorem C3_counterexample :
    safe_program_name (some "../etc") = some "etc" ∧
    (some "etc" : Option String) ≠ none := by
  exact ⟨by decide, by decide⟩

/-- C3 amended: normalization maps `"../etc"` to `"etc"` (stripping the
directory component rather than returning `None`); the run request is then
refused by the program-list membership check whenever `"etc"` is not a
listed program — the handler returns with unchanged state, an empty event
list (no source-text lookup, no kill, no launch).  In general
`safe_program_name` strips the directory component and a trailing `.py`,
and any value it accepts contains no path separator (values still
containing one after stripping are rejected), all before any source-text
lookup. -/
theorem C3_normalization (st : AppState) (programs : List String)
    (code : String → Option String) (b : Bool)
    (hmem : programs.contains "etc" = false) :
    safe_program_name (some "../etc") = some "etc" ∧
    run_program st programs code (some "../etc") b =
      ⟨st, [], Resp.redirect (some "etc")⟩ ∧
    (∀ s r, safe_program_name (some s) = some r →
      r.data.contains '/' = false ∧ r.data.contains '\\' = false) := by
  have hname : safe_program_name (some "../etc") = some "etc" := by decide
  have hnotmem : "etc" ∉ programs := by simpa using hmem
  refine ⟨hname, ?_, ?_⟩
  · unfold run_program
    rw [hname]
    simp [hnotmem]
  · intro s r hr
    simp only [safe_program_name] at hr
    split at hr
    · exact absurd hr (by simp)
    · split at hr
      · exact absurd hr (by simp)
      · rename_i hcond
        rw [Option.some.injEq] at hr
        subst hr
        simp only [Bool.or_eq_true, not_or] at hcond
        exact ⟨by simpa using hcond.1, by simpa using hcond.2⟩

/-- C3 witness: a program list not containing `"etc"`; the handler is a
pure no-op redirect for the raw identifier `"../etc"`. -/
theorem C3_normalization_witness :
    (["1", "2"].contains "etc") = false ∧
    run_program stRun ["1", "2"] (fun _ => some "x") (some "../etc") false =
      ⟨stRun, [], Resp.redirect (some "etc")⟩ ∧
    safe_program_name (some "../etc") = some "etc" := by
  have h := C3_normalization stRun ["1", "2"] (fun _ => some "x") false
    (by decide)
  exact ⟨by decide, h.2.1, h.1⟩

/-- C9: `get_programs()` returns the block list sorted ascending
(`ORDER BY block_index ASC`); we take that order as an abstract relation
`le` under which the list is pairwise sorted.  With a non-empty list, a
request parameter whose normalization is missing or not listed selects the
first (ascending-least) program `p` — which precedes every other listed
program in the order — and a normalized parameter that is listed is
selected exactly. -/
theorem C9_index_selection (le : String → String → Prop) (p : String)
    (rest : List String) (param : Option String)
    (hs : List.Pairwise le (p :: rest)) :
    (optMem (safe_program_name param) (p :: rest) = false →
      index_select (p :: rest) param = some p ∧ ∀ q ∈ rest, le p q) ∧
    (∀ s, safe_program_name param = some s → s ∈ p :: rest →
      index_select (p :: rest) param = some s) := by
  constructor
  · intro hnm
    refine ⟨?_, (List.pairwise_cons.mp hs).1⟩
    unfold index_select
    simp [hnm]
  · intro s hname hmem
    have hopt : optMem (some s) (p :: rest) = true := by
      simpa [optMem] using hmem
    unfold index_select
    simp [hname, hopt]

/-- C9 witness: list `["1", "22"]` sorted ascending by string length;
`"9"` is not listed (fallback to `"1"`), `"22"` is (selected exactly). -/
theorem C9_index_selection_witness :
    (optMem (safe_program_name (some "9")) ["1", "22"] = false →
      index_select ["1", "22"] (some "9") = some "1") ∧
    optMem (safe_program_name (some "9")) ["1", "22"] = false ∧
    index_select ["1", "22"] (some "22") = some "22" := by
  have h1 := C9_index_selection (fun a b => a.data.length ≤ b.data.length)
    "1" ["22"] (some "9") (by decide)
  have h2 := C9_index_selection (fun a b => a.data.length ≤ b.data.length)
    "1" ["22"] (some "22") (by decide)
  exact ⟨fun hnm => (h1.1 hnm).1, by decide,
    h2.2 "22" (by decide) (by decide)⟩

/-- C10: `increment_like` bumps the program's likes by exactly one and
leaves its dislikes unchanged, inserting a `(1, 0)` row when none exists,
and touches no other program's row; `increment_dislike` is symmetric,
inserting `(0, 1)` when no row exists. -/
theorem C10_reaction_counters (tbl : Reactions) (program : String) :
    (get_reactions (increment_like tbl program) program).1 =
      (get_reactions tbl program).1 + 1 ∧
    (get_reactions (increment_like tbl program) program).2 =
      (get_reactions tbl program).2 ∧
    (tbl program = none → increment_like tbl program program = some (1, 0)) ∧
    (∀ q, q ≠ program → increment_like tbl program q = tbl q) ∧
    (get_reactions (increment_dislike tbl program) program).2 =
      (get_reactions tbl program).2 + 1 ∧
    (get_reactions (increment_dislike tbl program) program).1 =
      (get_reactions tbl program).1 ∧
    (tbl program = none → increment_dislike tbl program program = some (0, 1)) ∧
    (∀ q, q ≠ program → increment_dislike tbl program q = tbl q) := by
  refine ⟨?_, ?_, ?_, ?_, ?_, ?_, ?_, ?_⟩
  · cases h : tbl program with
    | none => simp [get_reactions, increment_like, h]
    | some v => obtain ⟨l, d⟩ := v; simp [get_reactions, increment_like, h]
  · cases h : tbl program with
    | none => simp [get_reactions, increment_like, h]
    | some v => obtain ⟨l, d⟩ := v; simp [get_reactions, increment_like, h]
  · intro hnone
    simp [increment_like, hnone]
  · intro q hq
    simp [increment_like, hq]
  · cases h : tbl program with
    | none => simp [get_reactions, increment_dislike, h]
    | some v => obtain ⟨l, d⟩ := v; simp [get_reactions, increment_dislike, h]
  · cases h : tbl program with
    | none => simp [get_reactions, increment_dislike, h]
    | some v => obtain ⟨l, d⟩ := v; simp [get_reactions, increment_dislike, h]
  · intro hnone
    simp [increment_dislike, hnone]
  · intro q hq
    simp [increment_dislike, hq]

/-- C10 witness: empty table, program `"7"`; the row is inserted and no
other key is touched. -/
theorem C10_reaction_counters_witness :
    ((fun _ : String => (none : Option (Nat × Nat))) "7" = none) ∧
    increment_like (fun _ => none) "7" "7" = some (1, 0) ∧
    increment_dislike (fun _ => none) "7" "7" = some (0, 1) ∧
    increment_like (fun _ => none) "7" "8" = none ∧
    (get_reactions (increment_like (fun _ => none) "7") "7").1 =
      (get_reactions (fun _ => none) "7").1 + 1 := by
  have h := C10_reaction_counters (fun _ => none) "7"
  exact ⟨rfl, h.2.2.1 rfl, h.2.2.2.2.2.2.1 rfl,
    h.2.2.2.1 "8" (by decide), h.1⟩

end Runner
